import Mathlib

/-!
A verification development for the collaborative-filtering recommender in
`src/recommender.py`.  The manual (non-pandas) code path is the authority:
interaction records are `{user_id, item_id, rating}` triples, ratings are
modelled as exact rationals (every IEEE double is rational), and the real
numbers stand in for floating point in the similarity engine, where
`np.linalg.norm` introduces square roots.  `-np.inf` is modelled as
`⊥ : WithBot ℝ`.
-/

namespace Recommender

/-- An interaction record as produced by `load_interactions`:
`{user_id, item_id, rating}`. -/
structure Interaction where
  user_id : String
  item_id : String
  rating : ℚ
deriving DecidableEq

/-- `users = sorted({r["user_id"] for r in recs})` from
`build_user_item_matrix`. -/
def buildUsers (recs : List Interaction) : List String :=
  List.insertionSort (· ≤ ·) (recs.map Interaction.user_id).dedup

/-- `items = sorted({r["item_id"] for r in recs})` from
`build_user_item_matrix`. -/
def buildItems (recs : List Interaction) : List String :=
  List.insertionSort (· ≤ ·) (recs.map Interaction.item_id).dedup

/-- The accumulation loop of `build_user_item_matrix`, projected to a single
cell: `mat[i, j] += rating; counts[i, j] += 1` for each record whose user and
item hit the cell. -/
def cellAccum (recs : List Interaction) (u it : String) : ℚ × ℕ :=
  recs.foldl
    (fun acc r =>
      if r.user_id = u ∧ r.item_id = it then (acc.1 + r.rating, acc.2 + 1) else acc)
    (0, 0)

/-- One cell of the matrix returned by `build_user_item_matrix`: the
accumulated sum divided by the count where the count is positive
(`mat[nonzero] = mat[nonzero] / counts[nonzero]`), `0.0` otherwise. -/
def buildCell (recs : List Interaction) (u it : String) : ℚ :=
  if (cellAccum recs u it).2 = 0 then 0
  else (cellAccum recs u it).1 / ((cellAccum recs u it).2 : ℚ)

/-- `build_user_item_matrix` (manual fallback build): the dense matrix as a
function of row and column indices, together with the user and item lists. -/
def build_user_item_matrix (recs : List Interaction) :
    (Fin (buildUsers recs).length → Fin (buildItems recs).length → ℚ) ×
      List String × List String :=
  (fun i j => buildCell recs ((buildUsers recs).get i) ((buildItems recs).get j),
   buildUsers recs, buildItems recs)

/-- The ratings of the records matching one (user, item) pair, in input
order. -/
def matched (recs : List Interaction) (u it : String) : List ℚ :=
  (recs.filter (fun r => decide (r.user_id = u ∧ r.item_id = it))).map
    Interaction.rating

/-- Spec-side definition, for comparison with `buildCell`: the arithmetic mean
of the ratings of all records with the given (user, item) pair, `0.0` if there
are none. -/
def meanRating (recs : List Interaction) (u it : String) : ℚ :=
  if (matched recs u it).length = 0 then 0
  else (matched recs u it).sum / ((matched recs u it).length : ℚ)

/-- One step of the totals dictionary loop of `popular_items`:
`totals[it] = totals.get(it, 0.0) + x`, with Python dict insertion order (a
new key is appended at the end, an existing key is updated in place). -/
def addTotal (l : List (String × ℚ)) (it : String) (x : ℚ) : List (String × ℚ) :=
  if l.any (fun p => p.1 == it) then
    l.map (fun p => if p.1 = it then (p.1, p.2 + x) else p)
  else l ++ [(it, x)]

/-- The totals dictionary of `popular_items` as an insertion-ordered
association list. -/
def totalsList (recs : List Interaction) : List (String × ℚ) :=
  recs.foldl (fun l r => addTotal l r.item_id r.rating) []

/-- `popular_items` (manual fallback path): sort the totals by value
descending with Python's stable sort (modelled by the stable
`List.mergeSort`), then truncate to `top_n`.  No filtering afterwards. -/
def popular_items (recs : List Interaction) (top_n : ℕ) : List (String × ℚ) :=
  ((totalsList recs).mergeSort (fun p q => decide (q.2 ≤ p.2))).take top_n

/-- Spec-side definition, for comparison with `totalsList`: the total rating
of an item, summed over all records mentioning it. -/
def sumRatings (recs : List Interaction) (it : String) : ℚ :=
  ((recs.filter (fun r => decide (r.item_id = it))).map Interaction.rating).sum

/-- The position of the first record mentioning an item (first-appearance
order of the input). -/
def firstIdx (recs : List Interaction) (it : String) : ℕ :=
  (recs.map Interaction.item_id).indexOf it

/-- Euclidean norm of one matrix row: `np.linalg.norm(mat, axis=1)` in
`_cosine_sim_matrix`. -/
noncomputable def rowNorm {m n : ℕ} (mat : Fin m → Fin n → ℚ) (u : Fin m) : ℝ :=
  Real.sqrt (∑ j, ((mat u j : ℝ)) ^ 2)

/-- The row norm after the `norms[norms == 0] = 1.0` guard. -/
noncomputable def guardNorm {m n : ℕ} (mat : Fin m → Fin n → ℚ) (u : Fin m) : ℝ :=
  if rowNorm mat u = 0 then 1 else rowNorm mat u

/-- One entry of the row-normalized matrix `mat_norm = mat / norms`. -/
noncomputable def matNorm {m n : ℕ} (mat : Fin m → Fin n → ℚ) (u : Fin m) (j : Fin n) : ℝ :=
  (mat u j : ℝ) / guardNorm mat u

/-- One entry of `mat_norm @ mat_norm.T`, the user-user cosine similarity
matrix of `_cosine_sim_matrix`. -/
noncomputable def cosSim {m n : ℕ} (mat : Fin m → Fin n → ℚ) (u v : Fin m) : ℝ :=
  ∑ j, matNorm mat u j * matNorm mat v j

/-- The similarity row extracted for the target user in `recommend_for_user`,
with the self-similarity entry set to zero (`sim[user_idx] = 0.0`). -/
noncomputable def simRow {m n : ℕ} (mat : Fin m → Fin n → ℚ) (t u : Fin m) : ℝ :=
  if u = t then 0 else cosSim mat t u

/-- `num = sim @ ratings`: the weighted sum of all users' ratings of item
`j`. -/
noncomputable def numScore {m n : ℕ} (mat : Fin m → Fin n → ℚ) (t : Fin m) (j : Fin n) : ℝ :=
  ∑ u, simRow mat t u * (mat u j : ℝ)

/-- `denom = (sim > 0).astype(float) @ (ratings > 0).astype(float)`. -/
noncomputable def denomScore {m n : ℕ} (mat : Fin m → Fin n → ℚ) (t : Fin m) (j : Fin n) : ℝ :=
  ∑ u, (if 0 < simRow mat t u then (1 : ℝ) else 0) * (if 0 < mat u j then (1 : ℝ) else 0)

/-- The denominator after the `np.where(denom == 0, 1.0, denom)` guard. -/
noncomputable def denomGuard {m n : ℕ} (mat : Fin m → Fin n → ℚ) (t : Fin m) (j : Fin n) : ℝ :=
  if denomScore mat t j = 0 then 1 else denomScore mat t j

/-- `scores = num / denom`, the predicted score of item `j` for the target
user before the exclude-seen step. -/
noncomputable def preScore {m n : ℕ} (mat : Fin m → Fin n → ℚ) (t : Fin m) (j : Fin n) : ℝ :=
  numScore mat t j / denomGuard mat t j

/-- The final score vector: `np.where(seen_mask, -np.inf, scores)` when
`exclude_seen` is set, with `-np.inf` modelled as `⊥ : WithBot ℝ`. -/
noncomputable def score {m n : ℕ} (mat : Fin m → Fin n → ℚ) (exclude_seen : Bool)
    (t : Fin m) (j : Fin n) : WithBot ℝ :=
  if exclude_seen ∧ 0 < mat t j then ⊥ else ((preScore mat t j : ℝ) : WithBot ℝ)

/-- The deterministic order realized by `np.argsort(scores)`: ascending by
score, ties resolved by index (numpy's sort leaves tied entries in index
order on these arrays), so the sorted index list is unique. -/
def argLe {n : ℕ} (s : Fin n → WithBot ℝ) (i j : Fin n) : Prop :=
  s i < s j ∨ (s i = s j ∧ i ≤ j)

noncomputable instance argLe.decidableRel {n : ℕ} (s : Fin n → WithBot ℝ) :
    DecidableRel (argLe s) :=
  fun i j => inferInstanceAs (Decidable (s i < s j ∨ (s i = s j ∧ i ≤ j)))

instance argLe.isTotal {n : ℕ} (s : Fin n → WithBot ℝ) : IsTotal (Fin n) (argLe s) where
  total i j := by
    rcases lt_trichotomy (s i) (s j) with h | h | h
    · exact Or.inl (Or.inl h)
    · rcases le_total i j with hij | hij
      · exact Or.inl (Or.inr ⟨h, hij⟩)
      · exact Or.inr (Or.inr ⟨h.symm, hij⟩)
    · exact Or.inr (Or.inl h)

instance argLe.isTrans {n : ℕ} (s : Fin n → WithBot ℝ) : IsTrans (Fin n) (argLe s) where
  trans i j k hij hjk := by
    rcases hij with h₁ | ⟨e₁, l₁⟩
    · rcases hjk with h₂ | ⟨e₂, l₂⟩
      · exact Or.inl (h₁.trans h₂)
      · exact Or.inl (e₂ ▸ h₁)
    · rcases hjk with h₂ | ⟨e₂, l₂⟩
      · exact Or.inl (e₁ ▸ h₂)
      · exact Or.inr ⟨e₁.trans e₂, l₁.trans l₂⟩

instance argLe.isAntisymm {n : ℕ} (s : Fin n → WithBot ℝ) : IsAntisymm (Fin n) (argLe s) where
  antisymm i j hij hji := by
    rcases hij with h₁ | ⟨e₁, l₁⟩
    · rcases hji with h₂ | ⟨e₂, l₂⟩
      · exact absurd (h₁.trans h₂) (lt_irrefl _)
      · exact absurd h₁ (e₂.symm ▸ lt_irrefl _)
    · rcases hji with h₂ | ⟨e₂, l₂⟩
      · exact absurd h₂ (e₁ ▸ lt_irrefl _)
      · exact le_antisymm l₁ l₂

/-- `np.argsort(scores)[::-1]`: the index list sorted ascending by score and
then reversed, so that scores descend. -/
noncomputable def ranking {n : ℕ} (s : Fin n → WithBot ℝ) : List (Fin n) :=
  (List.insertionSort (argLe s) (List.finRange n)).reverse

/-- The row index of the target user: `users.index(user_id)`. -/
def targetIdx (users : List String) (user_id : String) (h : user_id ∈ users) :
    Fin users.length :=
  ⟨users.indexOf user_id, List.indexOf_lt_length.mpr h⟩

/-- The `.ok` payload of `recommend_for_user`: rank by score descending, take
`top_n` indices, keep those with finite positive score, and read off
`(items[i], scores[i])`. -/
noncomputable def recommendCore {m : ℕ} (items : List String)
    (mat : Fin m → Fin items.length → ℚ) (t : Fin m) (top_n : ℕ)
    (exclude_seen : Bool) : List (String × WithBot ℝ) :=
  ((((ranking (score mat exclude_seen t)).take top_n).filter
      (fun j => decide (score mat exclude_seen t j ≠ ⊥ ∧ 0 < score mat exclude_seen t j))).map
    (fun j => (items.get j, score mat exclude_seen t j)))

/-- `recommend_for_user`: raises `KeyError` (modelled as `Except.error`) when
the user is unknown, otherwise runs the scoring pipeline. -/
noncomputable def recommend_for_user (user_id : String) (users items : List String)
    (mat : Fin users.length → Fin items.length → ℚ) (top_n : ℕ)
    (exclude_seen : Bool) : Except String (List (String × WithBot ℝ)) :=
  if h : user_id ∈ users then
    Except.ok (recommendCore items mat (targetIdx users user_id h) top_n exclude_seen)
  else Except.error ("Unknown user_id: " ++ user_id)

lemma cellAccum_go (u it : String) (recs : List Interaction) (init : ℚ × ℕ) :
    recs.foldl
        (fun acc r =>
          if r.user_id = u ∧ r.item_id = it then (acc.1 + r.rating, acc.2 + 1) else acc)
        init
      = (init.1 + (matched recs u it).sum, init.2 + (matched recs u it).length) := by
  induction recs generalizing init with
  | nil => simp [matched]
  | cons r rs ih =>
    by_cases h : r.user_id = u ∧ r.item_id = it
    · rw [List.foldl_cons, if_pos h, ih]
      have hm : matched (r :: rs) u it = r.rating :: matched rs u it := by
        simp [matched, List.filter_cons, h]
      rw [hm, List.sum_cons, List.length_cons]
      exact Prod.ext (by ring) (by omega)
    · rw [List.foldl_cons, if_neg h, ih]
      have hm : matched (r :: rs) u it = matched rs u it := by
        simp [matched, List.filter_cons, h]
      rw [hm]

lemma cellAccum_eq (recs : List Interaction) (u it : String) :
    cellAccum recs u it = ((matched recs u it).sum, (matched recs u it).length) := by
  rw [cellAccum, cellAccum_go]
  simp

lemma buildCell_eq_meanRating (recs : List Interaction) (u it : String) :
    buildCell recs u it = meanRating recs u it := by
  rw [buildCell, meanRating, cellAccum_eq]

/-- C1: `build_user_item_matrix` returns `(matrix, users, items)` where
`users` and `items` are the unique identifiers sorted ascending in string
order, and every matrix cell is the arithmetic mean of the matching ratings,
`0.0` when there is no matching record. -/
theorem C1_build_user_item_matrix (recs : List Interaction) :
    (List.Sorted (· ≤ ·) (buildUsers recs) ∧ (buildUsers recs).Nodup ∧
      (∀ u, u ∈ buildUsers recs ↔ ∃ r ∈ recs, r.user_id = u)) ∧
    (List.Sorted (· ≤ ·) (buildItems recs) ∧ (buildItems recs).Nodup ∧
      (∀ it, it ∈ buildItems recs ↔ ∃ r ∈ recs, r.item_id = it)) ∧
    (∀ i j, (build_user_item_matrix recs).1 i j =
      meanRating recs ((buildUsers recs).get i) ((buildItems recs).get j)) := by
  refine ⟨⟨List.sorted_insertionSort _ _, ?_, ?_⟩,
    ⟨List.sorted_insertionSort _ _, ?_, ?_⟩, ?_⟩
  · exact (List.perm_insertionSort _ _).nodup_iff.mpr (List.nodup_dedup _)
  · intro u
    rw [buildUsers, List.mem_insertionSort, List.mem_dedup, List.mem_map]
  · exact (List.perm_insertionSort _ _).nodup_iff.mpr (List.nodup_dedup _)
  · intro it
    rw [buildItems, List.mem_insertionSort, List.mem_dedup, List.mem_map]
  · intro i j
    exact buildCell_eq_meanRating recs _ _

/-- Witness for C1, on the worked example of the spec. -/
def exRecs : List Interaction :=
  [⟨"u1", "i1", 5⟩, ⟨"u1", "i2", 3⟩, ⟨"u2", "i1", 4⟩, ⟨"u2", "i3", 5⟩, ⟨"u3", "i2", 2⟩]

lemma buildUsers_exRecs : buildUsers exRecs = ["u1", "u2", "u3"] := by
  simp [buildUsers, exRecs, List.insertionSort, List.orderedInsert]
  decide

lemma buildItems_exRecs : buildItems exRecs = ["i1", "i2", "i3"] := by
  simp [buildItems, exRecs, List.insertionSort, List.orderedInsert]
  decide

theorem C1_build_user_item_matrix_witness :
    List.Sorted (· ≤ ·) (buildUsers exRecs) ∧ "u1" ∈ buildUsers exRecs ∧
      (build_user_item_matrix exRecs).1
        ⟨0, by simp [buildUsers_exRecs]⟩ ⟨0, by simp [buildItems_exRecs]⟩ = 5 := by
  refine ⟨(C1_build_user_item_matrix exRecs).1.1, ?_, ?_⟩
  · exact ((C1_build_user_item_matrix exRecs).1.2.2 "u1").mpr
      ⟨⟨"u1", "i1", 5⟩, by decide, rfl⟩
  · refine ((C1_build_user_item_matrix exRecs).2.2 _ _).trans ?_
    rw [List.get_of_eq buildUsers_exRecs, List.get_of_eq buildItems_exRecs]
    simp +decide [meanRating, matched, exRecs]

/-- C2: the pre-exclusion score of item `j` is `numerator / denominator`, the
numerator being the similarity-weighted sum of all ratings of `j`, the
denominator the count of users with positive similarity and a positive rating
of `j`, with a zero denominator replaced by `1` so that the score then equals
the numerator. -/
theorem C2_prediction_formula {m n : ℕ} (mat : Fin m → Fin n → ℚ) (t : Fin m) (j : Fin n) :
    preScore mat t j =
      (∑ u, simRow mat t u * (mat u j : ℝ)) /
        (if denomScore mat t j = 0 then 1 else denomScore mat t j) ∧
    denomScore mat t j =
      ((Finset.univ.filter fun u => 0 < simRow mat t u ∧ 0 < mat u j).card : ℝ) ∧
    (denomScore mat t j = 0 →
      preScore mat t j = ∑ u, simRow mat t u * (mat u j : ℝ)) := by
  refine ⟨rfl, ?_, ?_⟩
  · rw [denomScore, ← Finset.sum_boole]
    refine Finset.sum_congr rfl fun u _ => ?_
    by_cases h₁ : 0 < simRow mat t u <;> by_cases h₂ : 0 < mat u j <;>
      simp [h₁, h₂]
  · intro h
    rw [preScore, denomGuard, if_pos h, div_one, numScore]

theorem C2_prediction_formula_witness :
    denomScore (fun _ _ => (0 : ℚ) : Fin 1 → Fin 1 → ℚ) 0 0 = 0 ∧
      preScore (fun _ _ => (0 : ℚ) : Fin 1 → Fin 1 → ℚ) 0 0 =
        ∑ u, simRow (fun _ _ => (0 : ℚ) : Fin 1 → Fin 1 → ℚ) 0 u *
          (((fun _ _ => (0 : ℚ) : Fin 1 → Fin 1 → ℚ) u 0 : ℚ) : ℝ) := by
  have h0 : denomScore (fun _ _ => (0 : ℚ) : Fin 1 → Fin 1 → ℚ) 0 0 = 0 := by
    rw [denomScore, Fin.sum_univ_one, simRow, if_pos rfl]
    norm_num
  exact ⟨h0, (C2_prediction_formula (fun _ _ => (0 : ℚ)) 0 0).2.2 h0⟩

/-- C7: the division guards make the similarity computation total: the
guarded norm and the guarded denominator are always positive, and a zero-norm
row stays an all-zero vector under normalization, giving that user cosine
similarity `0` to and from every user. -/
theorem C7_degenerate_guards {m n : ℕ} (mat : Fin m → Fin n → ℚ) (u t : Fin m) (j : Fin n) :
    0 < guardNorm mat u ∧ 0 < denomGuard mat t j ∧
    (rowNorm mat u = 0 →
      (∀ k, matNorm mat u k = 0) ∧ ∀ v, cosSim mat u v = 0 ∧ cosSim mat v u = 0) := by
  refine ⟨?_, ?_, ?_⟩
  · rw [guardNorm]
    split_ifs with h
    · exact one_pos
    · exact lt_of_le_of_ne (Real.sqrt_nonneg _) (Ne.symm h)
  · rw [denomGuard]
    split_ifs with h
    · exact one_pos
    · refine lt_of_le_of_ne ?_ (Ne.symm h)
      refine Finset.sum_nonneg fun v _ => mul_nonneg ?_ ?_ <;>
        · split_ifs <;> norm_num
  · intro h
    have hS : (∑ k, ((mat u k : ℝ)) ^ 2) = 0 := by
      have h0 : (∑ k, ((mat u k : ℝ)) ^ 2) ≤ 0 := Real.sqrt_eq_zero'.mp h
      have h1 : 0 ≤ ∑ k, ((mat u k : ℝ)) ^ 2 :=
        Finset.sum_nonneg fun k _ => sq_nonneg _
      linarith
    have hz : ∀ k, ((mat u k : ℝ)) = 0 := by
      intro k
      have hk := (Finset.sum_eq_zero_iff_of_nonneg
        (fun k _ => sq_nonneg ((mat u k : ℝ)))).mp hS k (Finset.mem_univ k)
      exact (pow_eq_zero_iff two_ne_zero).mp hk
    have hmn : ∀ k, matNorm mat u k = 0 := fun k => by
      rw [matNorm, hz k, zero_div]
    refine ⟨hmn, fun v => ⟨?_, ?_⟩⟩
    · rw [cosSim]
      exact Finset.sum_eq_zero fun k _ => by rw [hmn k, zero_mul]
    · rw [cosSim]
      exact Finset.sum_eq_zero fun k _ => by rw [hmn k, mul_zero]

theorem C7_degenerate_guards_witness :
    0 < guardNorm (fun _ _ => (0 : ℚ) : Fin 1 → Fin 1 → ℚ) 0 ∧
      matNorm (fun _ _ => (0 : ℚ) : Fin 1 → Fin 1 → ℚ) 0 0 = 0 ∧
      cosSim (fun _ _ => (0 : ℚ) : Fin 1 → Fin 1 → ℚ) 0 0 = 0 := by
  have h0 : rowNorm (fun _ _ => (0 : ℚ) : Fin 1 → Fin 1 → ℚ) 0 = 0 := by
    rw [rowNorm, Fin.sum_univ_one]
    norm_num
  exact ⟨(C7_degenerate_guards _ 0 0 0).1,
    ((C7_degenerate_guards _ 0 0 0).2.2 h0).1 0,
    (((C7_degenerate_guards _ 0 0 0).2.2 h0).2 0).1⟩

/-- C8: the similarity row used for target `i` has `sim[i][i] = 0`, and for
`i ≠ j` the similarity used for target `i` at `j` equals the one used for
target `j` at `i`. -/
theorem C8_similarity_symmetric {m n : ℕ} (mat : Fin m → Fin n → ℚ) (i j : Fin m) :
    simRow mat i i = 0 ∧ (i ≠ j → simRow mat i j = simRow mat j i) := by
  refine ⟨by rw [simRow, if_pos rfl], fun hij => ?_⟩
  rw [simRow, simRow, if_neg (fun h => hij h.symm), if_neg hij, cosSim, cosSim]
  exact Finset.sum_congr rfl fun k _ => mul_comm _ _

theorem C8_similarity_symmetric_witness :
    simRow (fun _ _ => (0 : ℚ) : Fin 2 → Fin 1 → ℚ) 0 0 = 0 ∧
      simRow (fun _ _ => (0 : ℚ) : Fin 2 → Fin 1 → ℚ) 0 1 =
        simRow (fun _ _ => (0 : ℚ) : Fin 2 → Fin 1 → ℚ) 1 0 :=
  ⟨(C8_similarity_symmetric (fun _ _ => (0 : ℚ)) 0 1).1,
   (C8_similarity_symmetric (fun _ _ => (0 : ℚ)) 0 1).2 (by decide)⟩

/-- C6: `recommend_for_user` fails with the not-found error exactly when the
target user is absent from `users`; when present it returns the scoring
pipeline's result, never the popularity fallback. -/
theorem C6_unknown_user (user_id : String) (users items : List String)
    (mat : Fin users.length → Fin items.length → ℚ) (top_n : ℕ) (exclude_seen : Bool) :
    (user_id ∉ users ↔
      recommend_for_user user_id users items mat top_n exclude_seen =
        Except.error ("Unknown user_id: " ++ user_id)) ∧
    (∀ h : user_id ∈ users,
      recommend_for_user user_id users items mat top_n exclude_seen =
        Except.ok (recommendCore items mat (targetIdx users user_id h) top_n
          exclude_seen)) := by
  constructor
  · constructor
    · intro h
      rw [recommend_for_user, dif_neg h]
    · intro h hmem
      rw [recommend_for_user, dif_pos hmem] at h
      exact absurd h (by simp)
  · intro h
    rw [recommend_for_user, dif_pos h]

theorem C6_unknown_user_witness :
    recommend_for_user "x" ["u"] ["a"] (fun _ _ => 0) 5 true =
      Except.error ("Unknown user_id: " ++ "x") :=
  (C6_unknown_user "x" ["u"] ["a"] (fun _ _ => 0) 5 true).1.mp (by decide)

/-- C10: a cold-start target user (all-zero matrix row) receives the empty
recommendation list: all similarities, numerators and scores collapse to `0`
and the strictly-positive filter removes everything. -/
theorem C10_cold_start (user_id : String) (users items : List String)
    (mat : Fin users.length → Fin items.length → ℚ) (top_n : ℕ)
    (h : user_id ∈ users)
    (hz : ∀ j, mat (targetIdx users user_id h) j = 0) :
    recommend_for_user user_id users items mat top_n true = Except.ok [] := by
  have hsim : ∀ u, simRow mat (targetIdx users user_id h) u = 0 := by
    intro u
    rw [simRow]
    split_ifs with he
    · rfl
    · rw [cosSim]
      refine Finset.sum_eq_zero fun k _ => ?_
      rw [matNorm, hz k]
      norm_num
  have hscore : ∀ j, score mat true (targetIdx users user_id h) j =
      ((0 : ℝ) : WithBot ℝ) := by
    intro j
    rw [score, if_neg ?_]
    · rw [preScore, numScore]
      have hnum : (∑ u, simRow mat (targetIdx users user_id h) u * (mat u j : ℝ)) = 0 :=
        Finset.sum_eq_zero fun u _ => by rw [hsim u, zero_mul]
      rw [hnum, zero_div]
    · rintro ⟨-, hj⟩
      rw [hz j] at hj
      exact lt_irrefl _ hj
  rw [recommend_for_user, dif_pos h]
  refine congrArg Except.ok ?_
  rw [recommendCore]
  have hfil : ((ranking (score mat true (targetIdx users user_id h))).take top_n).filter
      (fun j => decide (score mat true (targetIdx users user_id h) j ≠ ⊥ ∧
        0 < score mat true (targetIdx users user_id h) j)) = [] := by
    refine List.filter_eq_nil_iff.mpr fun j _ => ?_
    simp [hscore j]
  rw [hfil, List.map_nil]

theorem C10_cold_start_witness :
    recommend_for_user "u" ["u"] ["a"] (fun _ _ => 0) 5 true = Except.ok [] :=
  C10_cold_start "u" ["u"] ["a"] (fun _ _ => 0) 5 (by decide) (fun _ => rfl)

/-- C4: for a known user the result is the post-truncation filtered ranking:
at most `top_n` pairs, every returned score finite (not `-inf`) and strictly
positive, scores descending, and the finite-positive filter applied after the
`top_n` truncation. -/
theorem C4_result_shape (user_id : String) (users items : List String)
    (mat : Fin users.length → Fin items.length → ℚ) (top_n : ℕ) (exclude_seen : Bool)
    (h : user_id ∈ users) :
    ∃ l, recommend_for_user user_id users items mat top_n exclude_seen = Except.ok l ∧
      l = (((ranking (score mat exclude_seen (targetIdx users user_id h))).take
              top_n).filter
            (fun j => decide (score mat exclude_seen (targetIdx users user_id h) j ≠ ⊥ ∧
              0 < score mat exclude_seen (targetIdx users user_id h) j))).map
          (fun j => (items.get j, score mat exclude_seen (targetIdx users user_id h) j)) ∧
      l.length ≤ top_n ∧
      (∀ p ∈ l, p.2 ≠ ⊥ ∧ 0 < p.2) ∧
      l.Pairwise (fun p q => q.2 ≤ p.2) := by
  refine ⟨recommendCore items mat (targetIdx users user_id h) top_n exclude_seen,
    by rw [recommend_for_user, dif_pos h], rfl, ?_, ?_, ?_⟩
  · rw [recommendCore, List.length_map]
    refine le_trans (List.length_filter_le _ _) ?_
    rw [List.length_take]
    exact min_le_left _ _
  · intro p hp
    rw [recommendCore] at hp
    obtain ⟨j, hj, rfl⟩ := List.mem_map.mp hp
    have hf := (List.mem_filter.mp hj).2
    rw [decide_eq_true_eq] at hf
    exact hf
  · rw [recommendCore]
    rw [List.pairwise_map]
    have hrank : (ranking (score mat exclude_seen (targetIdx users user_id h))).Pairwise
        (fun i j => argLe (score mat exclude_seen (targetIdx users user_id h)) j i) := by
      rw [ranking]
      exact List.pairwise_reverse.mpr
        (List.sorted_insertionSort (argLe _) (List.finRange items.length))
    have htake := List.Pairwise.sublist (List.take_sublist top_n _) hrank
    refine List.Pairwise.imp ?_ (List.Pairwise.sublist (List.filter_sublist _) htake)
    intro a b hab
    rcases hab with hlt | ⟨heq, -⟩
    · exact le_of_lt hlt
    · exact le_of_eq heq

theorem C4_result_shape_witness :
    ∃ l, recommend_for_user "u" ["u"] ["a"] (fun _ _ => 0) 5 true = Except.ok l ∧
      l = (((ranking (score (fun _ _ => 0) true (targetIdx ["u"] "u" (by decide)))).take
              5).filter
            (fun j => decide (score (fun _ _ => (0 : ℚ)) true
                (targetIdx ["u"] "u" (by decide)) j ≠ ⊥ ∧
              0 < score (fun _ _ => (0 : ℚ)) true (targetIdx ["u"] "u" (by decide)) j))).map
          (fun j => ((["a"] : List String).get j,
            score (fun _ _ => (0 : ℚ)) true (targetIdx ["u"] "u" (by decide)) j)) ∧
      l.length ≤ 5 ∧
      (∀ p ∈ l, p.2 ≠ ⊥ ∧ 0 < p.2) ∧
      l.Pairwise (fun p q => q.2 ≤ p.2) :=
  C4_result_shape "u" ["u"] ["a"] (fun _ _ => 0) 5 true (by decide)

/-- C5: with `exclude_seen = true` no returned pair comes from an item the
target user has already rated positively: such items get score `-inf` and are
removed by the finiteness filter. -/
theorem C5_never_returns_seen (user_id : String) (users items : List String)
    (mat : Fin users.length → Fin items.length → ℚ) (top_n : ℕ)
    (h : user_id ∈ users) (l : List (String × WithBot ℝ))
    (hl : recommend_for_user user_id users items mat top_n true = Except.ok l)
    (p : String × WithBot ℝ) (hp : p ∈ l) :
    ∃ j, p = (items.get j, score mat true (targetIdx users user_id h) j) ∧
      ¬ 0 < mat (targetIdx users user_id h) j := by
  rw [recommend_for_user, dif_pos h] at hl
  rw [Except.ok.injEq] at hl
  subst hl
  rw [recommendCore] at hp
  obtain ⟨j, hj, rfl⟩ := List.mem_map.mp hp
  refine ⟨j, rfl, fun hpos => ?_⟩
  have hf := (List.mem_filter.mp hj).2
  rw [decide_eq_true_eq] at hf
  have hbot : score mat true (targetIdx users user_id h) j = ⊥ := by
    rw [score, if_pos ⟨rfl, hpos⟩]
  exact hf.1 hbot

/-- A concrete instance exhibiting the tie-breaking order: user `u0` has
rated only item `c`, user `u1` has rated `a` and `b` equally. -/
def exUsers : List String := ["u0", "u1"]

/-- Items of the concrete instance. -/
def exItems : List String := ["a", "b", "c"]

/-- The rating matrix of the concrete instance (rows `u0`, `u1`; columns
`a`, `b`, `c`). -/
def exMat : Fin 2 → Fin 3 → ℚ := ![![0, 0, 2], ![2, 2, 1]]

/-- The row index of `u0`. -/
def exT : Fin exUsers.length := ⟨0, by decide⟩

lemma exU0_mem : "u0" ∈ exUsers := by decide

lemma exT_target (h : "u0" ∈ exUsers) : targetIdx exUsers "u0" h = exT :=
  Fin.ext (by decide : List.indexOf "u0" exUsers = 0)

lemma rowNorm_ex0 : rowNorm exMat exT = 2 := by
  rw [rowNorm, Fin.sum_univ_three]
  norm_num [exMat, exT]
  rw [show (4 : ℝ) = 2 ^ 2 by norm_num, Real.sqrt_sq (by norm_num : (0:ℝ) ≤ 2)]

lemma rowNorm_ex1 : rowNorm exMat 1 = 3 := by
  rw [rowNorm, Fin.sum_univ_three]
  norm_num [exMat]
  rw [show (9 : ℝ) = 3 ^ 2 by norm_num, Real.sqrt_sq (by norm_num : (0:ℝ) ≤ 3)]

lemma cosSim_ex01 : cosSim exMat exT 1 = 1/3 := by
  rw [cosSim, Fin.sum_univ_three]
  rw [matNorm, matNorm, matNorm, matNorm, matNorm, matNorm]
  rw [guardNorm, if_neg (by rw [rowNorm_ex0]; norm_num), rowNorm_ex0]
  rw [guardNorm, if_neg (by rw [rowNorm_ex1]; norm_num), rowNorm_ex1]
  norm_num [exMat, exT]

lemma simRow_exT0 : simRow exMat exT 0 = 0 := by
  rw [simRow, if_pos (by decide : (0 : Fin 2) = exT)]

lemma simRow_exT1 : simRow exMat exT 1 = 1/3 := by
  rw [simRow, if_neg (by decide : ¬ (1 : Fin 2) = exT), cosSim_ex01]

lemma preScore_ex0 : preScore exMat exT 0 = 2/3 := by
  rw [preScore, numScore, denomGuard, denomScore, Fin.sum_univ_two, Fin.sum_univ_two,
    simRow_exT0, simRow_exT1]
  rw [if_neg (lt_irrefl (0:ℝ)), if_pos (by norm_num : (0:ℝ) < 1/3),
    if_neg (by decide : ¬ (0:ℚ) < exMat 0 0), if_pos (by decide : (0:ℚ) < exMat 1 0)]
  norm_num [exMat, exT]

lemma preScore_ex1 : preScore exMat exT 1 = 2/3 := by
  rw [preScore, numScore, denomGuard, denomScore, Fin.sum_univ_two, Fin.sum_univ_two,
    simRow_exT0, simRow_exT1]
  rw [if_neg (lt_irrefl (0:ℝ)), if_pos (by norm_num : (0:ℝ) < 1/3),
    if_neg (by decide : ¬ (0:ℚ) < exMat 0 1), if_pos (by decide : (0:ℚ) < exMat 1 1)]
  norm_num [exMat, exT]

lemma score_exT0 : score exMat true exT 0 = ((2/3 : ℝ) : WithBot ℝ) := by
  rw [score, if_neg (by rintro ⟨-, hj⟩; exact absurd hj (by decide)), preScore_ex0]

lemma score_exT1 : score exMat true exT 1 = ((2/3 : ℝ) : WithBot ℝ) := by
  rw [score, if_neg (by rintro ⟨-, hj⟩; exact absurd hj (by decide)), preScore_ex1]

lemma score_exT2 : score exMat true exT 2 = ⊥ := by
  rw [score, if_pos ⟨rfl, by decide⟩]

lemma ex_argLe_n12 : ¬ argLe (score exMat true exT) 1 2 := by
  rw [argLe, score_exT1, score_exT2]
  rintro (h | ⟨h, -⟩)
  · exact not_lt_bot h
  · exact WithBot.coe_ne_bot h

lemma ex_argLe_n02 : ¬ argLe (score exMat true exT) 0 2 := by
  rw [argLe, score_exT0, score_exT2]
  rintro (h | ⟨h, -⟩)
  · exact not_lt_bot h
  · exact WithBot.coe_ne_bot h

lemma ex_argLe_p01 : argLe (score exMat true exT) 0 1 :=
  Or.inr ⟨by rw [score_exT0, score_exT1], by decide⟩

lemma ex_ranking : ranking (score exMat true exT) = [1, 0, 2] := by
  rw [ranking]
  rw [show List.finRange 3 = [0, 1, 2] from by decide]
  show (List.orderedInsert _ 0 (List.orderedInsert _ 1 (List.orderedInsert _ 2 [])) :
    List (Fin 3)).reverse = [1, 0, 2]
  simp only [List.orderedInsert, ex_argLe_n12, ex_argLe_n02, ex_argLe_p01,
    if_true, if_false, ite_true, ite_false]
  decide

lemma ex_core : recommendCore exItems exMat exT 5 true =
    [("b", ((2/3 : ℝ) : WithBot ℝ)), ("a", ((2/3 : ℝ) : WithBot ℝ))] := by
  show ((((ranking (score exMat true exT)).take 5).filter
      (fun j => decide (score exMat true exT j ≠ ⊥ ∧ 0 < score exMat true exT j))).map
    (fun j => (exItems.get j, score exMat true exT j))) =
    [("b", ((2/3 : ℝ) : WithBot ℝ)), ("a", ((2/3 : ℝ) : WithBot ℝ))]
  rw [ex_ranking]
  rw [show ([1, 0, 2] : List (Fin 3)).take 5 = [1, 0, 2] from rfl]
  have hc1 : (decide (score exMat true exT 1 ≠ ⊥ ∧ 0 < score exMat true exT 1)) = true := by
    rw [score_exT1, decide_eq_true_eq]
    refine ⟨WithBot.coe_ne_bot, ?_⟩
    rw [show ((0 : WithBot ℝ)) = ((0 : ℝ) : WithBot ℝ) from rfl, WithBot.coe_lt_coe]
    norm_num
  have hc0 : (decide (score exMat true exT 0 ≠ ⊥ ∧ 0 < score exMat true exT 0)) = true := by
    rw [score_exT0, decide_eq_true_eq]
    refine ⟨WithBot.coe_ne_bot, ?_⟩
    rw [show ((0 : WithBot ℝ)) = ((0 : ℝ) : WithBot ℝ) from rfl, WithBot.coe_lt_coe]
    norm_num
  have hc2 : (decide (score exMat true exT 2 ≠ ⊥ ∧ 0 < score exMat true exT 2)) = false := by
    rw [score_exT2]
    simp
  rw [List.filter_cons, List.filter_cons, List.filter_cons, List.filter_nil,
    hc1, hc0, hc2]
  simp only [if_true, ite_true, Bool.false_eq_true, if_false, ite_false]
  rw [List.map_cons, List.map_cons, List.map_nil, score_exT1, score_exT0]
  rfl

/-- Counterexample to C3 as stated: on this instance items `a` and `b` have
the same positive score, `a` precedes `b` in the item list, yet the result
lists `b` first. -/
theorem C3_counterexample :
    recommend_for_user "u0" exUsers exItems exMat 5 true =
      Except.ok [("b", ((2/3 : ℝ) : WithBot ℝ)), ("a", ((2/3 : ℝ) : WithBot ℝ))] ∧
    List.indexOf "a" exItems < List.indexOf "b" exItems := by
  refine ⟨?_, by decide⟩
  rw [recommend_for_user, dif_pos exU0_mem, exT_target exU0_mem, ex_core]

lemma ranking_pairwise {n : ℕ} (s : Fin n → WithBot ℝ) :
    (ranking s).Pairwise (fun i j => argLe s j i) := by
  rw [ranking]
  exact List.pairwise_reverse.mpr (List.sorted_insertionSort (argLe s) (List.finRange n))

lemma ranking_nodup {n : ℕ} (s : Fin n → WithBot ℝ) : (ranking s).Nodup := by
  rw [ranking, List.nodup_reverse]
  exact (List.perm_insertionSort _ _).nodup_iff.mpr (List.nodup_finRange n)

/-- C3 amended: the ranking is by score descending, but two items with equal
scores appear in reverse of their original item order (ascending argsort is
stable, and the subsequent reversal flips tied runs). -/
theorem C3_ranking_ties_reversed {n : ℕ} (s : Fin n → WithBot ℝ) (ki kj : ℕ)
    (hk : ki < kj) (hkj : kj < (ranking s).length) (i j : Fin n)
    (hi : (ranking s).get ⟨ki, lt_trans hk hkj⟩ = i)
    (hj : (ranking s).get ⟨kj, hkj⟩ = j) :
    s j ≤ s i ∧ (s i = s j → j < i) := by
  have hp := List.pairwise_iff_get.mp (ranking_pairwise s)
    ⟨ki, lt_trans hk hkj⟩ ⟨kj, hkj⟩ hk
  rw [hi, hj] at hp
  have hne : j ≠ i := by
    intro he
    have hg := (ranking_nodup s).get_inj_iff.mp (hj.trans (he.trans hi.symm))
    rw [Fin.mk.injEq] at hg
    omega
  rcases hp with hlt | ⟨heq, hle⟩
  · refine ⟨le_of_lt hlt, fun he => ?_⟩
    rw [he] at hlt
    exact absurd hlt (lt_irrefl _)
  · exact ⟨le_of_eq heq, fun _ => lt_of_le_of_ne hle hne⟩

theorem C3_ranking_ties_reversed_witness :
    score exMat true exT 0 ≤ score exMat true exT 1 ∧
      (score exMat true exT 1 = score exMat true exT 0 → (0 : Fin 3) < 1) := by
  have hkj : 1 < (ranking (score exMat true exT)).length := by
    rw [ex_ranking]
    decide
  have hi : (ranking (score exMat true exT)).get ⟨0, lt_trans zero_lt_one hkj⟩ = 1 := by
    rw [List.get_of_eq ex_ranking]
    rfl
  have hj : (ranking (score exMat true exT)).get ⟨1, hkj⟩ = 0 := by
    rw [List.get_of_eq ex_ranking]
    rfl
  exact C3_ranking_ties_reversed (score exMat true exT) 0 1 zero_lt_one hkj 1 0 hi hj

theorem C5_never_returns_seen_witness :
    ∃ j, (("b", ((2/3 : ℝ) : WithBot ℝ)) : String × WithBot ℝ) =
        (exItems.get j, score exMat true (targetIdx exUsers "u0" exU0_mem) j) ∧
      ¬ 0 < exMat (targetIdx exUsers "u0" exU0_mem) j := by
  refine C5_never_returns_seen "u0" exUsers exItems exMat 5 exU0_mem
    [("b", ((2/3 : ℝ) : WithBot ℝ)), ("a", ((2/3 : ℝ) : WithBot ℝ))] ?_ _
    (List.mem_cons_self _ _)
  rw [recommend_for_user, dif_pos exU0_mem, exT_target exU0_mem, ex_core]

lemma sumRatings_append (rs : List Interaction) (r : Interaction) (it : String) :
    sumRatings (rs ++ [r]) it =
      sumRatings rs it + (if r.item_id = it then r.rating else 0) := by
  rw [sumRatings, sumRatings, List.filter_append, List.map_append, List.sum_append]
  congr 1
  by_cases h : r.item_id = it <;> simp [List.filter_cons, h]

lemma sumRatings_eq_zero {rs : List Interaction} {it : String}
    (h : it ∉ rs.map Interaction.item_id) : sumRatings rs it = 0 := by
  rw [sumRatings]
  have hf : rs.filter (fun r => decide (r.item_id = it)) = [] := by
    rw [List.filter_eq_nil_iff]
    intro r hr hd
    rw [decide_eq_true_eq] at hd
    exact h (List.mem_map.mpr ⟨r, hr, hd⟩)
  rw [hf]
  rfl

lemma indexOf_append_of_not_mem {α : Type*} [DecidableEq α] {l₁ : List α} {a : α}
    (h : a ∉ l₁) (l₂ : List α) :
    List.indexOf a (l₁ ++ l₂) = l₁.length + List.indexOf a l₂ := by
  induction l₁ with
  | nil => simp
  | cons x xs ih =>
    have hxa : (x == a) = false :=
      beq_eq_false_iff_ne.mpr fun he => h (he ▸ List.mem_cons_self x xs)
    have hx : a ∉ xs := fun hc => h (List.mem_cons_of_mem x hc)
    rw [List.cons_append, List.indexOf_cons, hxa, cond_false, ih hx, List.length_cons]
    omega

lemma firstIdx_append_of_mem {rs : List Interaction} {it : String}
    (h : it ∈ rs.map Interaction.item_id) (r : Interaction) :
    firstIdx (rs ++ [r]) it = firstIdx rs it := by
  rw [firstIdx, firstIdx, List.map_append]
  exact List.indexOf_append_of_mem h

lemma firstIdx_append_self {rs : List Interaction} {r : Interaction}
    (h : r.item_id ∉ rs.map Interaction.item_id) :
    firstIdx (rs ++ [r]) r.item_id = (rs.map Interaction.item_id).length := by
  rw [firstIdx, List.map_append, indexOf_append_of_not_mem h]
  simp [List.indexOf_cons]

lemma addTotal_of_mem {l : List (String × ℚ)} {it : String} (x : ℚ)
    (h : it ∈ l.map Prod.fst) :
    addTotal l it x = l.map (fun p => if p.1 = it then (p.1, p.2 + x) else p) := by
  rw [addTotal, if_pos]
  rw [List.any_eq_true]
  obtain ⟨p, hp, he⟩ := List.mem_map.mp h
  exact ⟨p, hp, by rw [beq_iff_eq]; exact he⟩

lemma addTotal_of_not_mem {l : List (String × ℚ)} {it : String} (x : ℚ)
    (h : it ∉ l.map Prod.fst) :
    addTotal l it x = l ++ [(it, x)] := by
  rw [addTotal, if_neg]
  rw [List.any_eq_true]
  rintro ⟨p, hp, he⟩
  rw [beq_iff_eq] at he
  exact h (List.mem_map.mpr ⟨p, hp, he⟩)

lemma totalsList_append (rs : List Interaction) (r : Interaction) :
    totalsList (rs ++ [r]) = addTotal (totalsList rs) r.item_id r.rating := by
  rw [totalsList, totalsList, List.foldl_append]
  rfl

lemma totalsList_spec (recs : List Interaction) :
    (∀ p ∈ totalsList recs,
      p.1 ∈ recs.map Interaction.item_id ∧ p.2 = sumRatings recs p.1) ∧
    (∀ it ∈ recs.map Interaction.item_id, it ∈ (totalsList recs).map Prod.fst) ∧
    (totalsList recs).Pairwise (fun p q => firstIdx recs p.1 < firstIdx recs q.1) := by
  induction recs using List.reverseRecOn with
  | nil => refine ⟨by simp [totalsList], by simp, by simp [totalsList]⟩
  | append_singleton rs r ih =>
    obtain ⟨ih1, ih2, ih3⟩ := ih
    rw [totalsList_append]
    by_cases hmem : r.item_id ∈ (totalsList rs).map Prod.fst
    · rw [addTotal_of_mem _ hmem]
      refine ⟨?_, ?_, ?_⟩
      · intro p hp
        obtain ⟨q, hq, rfl⟩ := List.mem_map.mp hp
        have hq1 := ih1 q hq
        by_cases he : q.1 = r.item_id
        · rw [if_pos he]
          refine ⟨by rw [List.map_append]; exact List.mem_append_left _ hq1.1, ?_⟩
          dsimp only
          rw [sumRatings_append, ← hq1.2, if_pos he.symm]
        · rw [if_neg he]
          exact ⟨by rw [List.map_append]; exact List.mem_append_left _ hq1.1,
            by rw [sumRatings_append, ← hq1.2, if_neg (fun hh => he hh.symm), add_zero]⟩
      · intro it hit
        have hmf : ((totalsList rs).map
            (fun p => if p.1 = r.item_id then (p.1, p.2 + r.rating) else p)).map Prod.fst
            = (totalsList rs).map Prod.fst := by
          rw [List.map_map]
          refine List.map_congr_left fun p hp => ?_
          by_cases he : p.1 = r.item_id
          · rw [Function.comp_apply, if_pos he]
          · rw [Function.comp_apply, if_neg he]
        rw [hmf]
        rw [List.map_append, List.mem_append] at hit
        rcases hit with h | h
        · exact ih2 it h
        · rw [List.map_singleton, List.mem_singleton] at h
          exact h ▸ hmem
      · rw [List.pairwise_map]
        refine List.Pairwise.imp_of_mem ?_ ih3
        intro p q hp hq hpq
        have hfp : (if p.1 = r.item_id then (p.1, p.2 + r.rating) else p).1 = p.1 := by
          split_ifs <;> rfl
        have hfq : (if q.1 = r.item_id then (q.1, q.2 + r.rating) else q).1 = q.1 := by
          split_ifs <;> rfl
        rw [hfp, hfq, firstIdx_append_of_mem (ih1 p hp).1,
          firstIdx_append_of_mem (ih1 q hq).1]
        exact hpq
    · rw [addTotal_of_not_mem _ hmem]
      have hitem : r.item_id ∉ rs.map Interaction.item_id := fun hc => hmem (ih2 _ hc)
      refine ⟨?_, ?_, ?_⟩
      · intro p hp
        rw [List.mem_append] at hp
        rcases hp with h | h
        · have h1 := ih1 p h
          refine ⟨by rw [List.map_append]; exact List.mem_append_left _ h1.1, ?_⟩
          rw [sumRatings_append, ← h1.2, if_neg (fun hh => hmem ?_), add_zero]
          exact hh ▸ List.mem_map.mpr ⟨p, h, rfl⟩
        · rw [List.mem_singleton] at h
          subst h
          refine ⟨by rw [List.map_append]; exact List.mem_append_right _ (by simp), ?_⟩
          dsimp only
          rw [sumRatings_append, sumRatings_eq_zero hitem, if_pos rfl, zero_add]
      · intro it hit
        rw [List.map_append, List.mem_append] at hit
        rw [List.map_append, List.mem_append]
        rcases hit with h | h
        · exact Or.inl (ih2 it h)
        · rw [List.map_singleton, List.mem_singleton] at h
          exact Or.inr (by simp [h])
      · rw [List.pairwise_append]
        refine ⟨List.Pairwise.imp_of_mem ?_ ih3, List.pairwise_singleton _ _, ?_⟩
        · intro p q hp hq hpq
          rw [firstIdx_append_of_mem (ih1 p hp).1, firstIdx_append_of_mem (ih1 q hq).1]
          exact hpq
        · intro p hp q hq
          rw [List.mem_singleton] at hq
          subst hq
          rw [firstIdx_append_of_mem (ih1 p hp).1]
          show firstIdx rs p.1 < firstIdx (rs ++ [r]) r.item_id
          rw [firstIdx_append_self hitem]
          exact List.indexOf_lt_length.mpr (ih1 p hp).1

lemma totalsList_nodup (recs : List Interaction) : (totalsList recs).Nodup :=
  (totalsList_spec recs).2.2.imp fun hpq he => absurd (he ▸ hpq) (lt_irrefl _)

lemma pair_sublist_of_mem {α : Type*} {l : List α} {a b : α} (ha : a ∈ l) (hb : b ∈ l)
    (hab : a ≠ b) : [a, b].Sublist l ∨ [b, a].Sublist l := by
  induction l with
  | nil => cases ha
  | cons x xs ih =>
    rcases List.mem_cons.mp ha with rfl | ha'
    · have hb' : b ∈ xs := (List.mem_cons.mp hb).resolve_left fun he => hab he.symm
      exact Or.inl ((List.singleton_sublist.mpr hb').cons₂ a)
    · rcases List.mem_cons.mp hb with rfl | hb'
      · exact Or.inr ((List.singleton_sublist.mpr ha').cons₂ b)
      · exact (ih ha' hb').imp (List.Sublist.cons x) (List.Sublist.cons x)

lemma not_pair_sublist_rev {α : Type*} {a b : α} (hab : a ≠ b) :
    ∀ {l : List α}, l.Nodup → [a, b].Sublist l → [b, a].Sublist l → False := by
  intro l
  induction l with
  | nil => intro _ h₁ _; simp at h₁
  | cons x xs ih =>
    intro hn h₁ h₂
    cases h₁ with
    | cons _ h₁' =>
      cases h₂ with
      | cons _ h₂' => exact ih (List.Nodup.of_cons hn) h₁' h₂'
      | cons₂ _ h₂' =>
        have hbxs : b ∈ xs := h₁'.subset (by simp)
        exact (List.nodup_cons.mp hn).1 hbxs
    | cons₂ _ h₁' =>
      cases h₂ with
      | cons _ h₂' =>
        have haxs : a ∈ xs := h₂'.subset (by simp)
        exact (List.nodup_cons.mp hn).1 haxs
      | cons₂ _ h₂' => exact hab rfl

lemma popLe_trans (a b c : String × ℚ) :
    (fun p q : String × ℚ => decide (q.2 ≤ p.2)) a b = true →
    (fun p q : String × ℚ => decide (q.2 ≤ p.2)) b c = true →
    (fun p q : String × ℚ => decide (q.2 ≤ p.2)) a c = true := by
  simp only [decide_eq_true_eq]
  exact fun h₁ h₂ => le_trans h₂ h₁

lemma popLe_total (a b : String × ℚ) :
    ((fun p q : String × ℚ => decide (q.2 ≤ p.2)) a b ||
      (fun p q : String × ℚ => decide (q.2 ≤ p.2)) b a) = true := by
  simp only [Bool.or_eq_true, decide_eq_true_eq]
  exact (le_total b.2 a.2).imp id id

lemma mergeSort_totals_sorted (recs : List Interaction) :
    ((totalsList recs).mergeSort (fun p q => decide (q.2 ≤ p.2))).Pairwise
      (fun p q => q.2 ≤ p.2) := by
  have h := List.sorted_mergeSort popLe_trans popLe_total (totalsList recs)
  exact h.imp fun hab => by rwa [decide_eq_true_eq] at hab

lemma mergeSort_totals_tie_stable (recs : List Interaction) :
    ((totalsList recs).mergeSort (fun p q => decide (q.2 ≤ p.2))).Pairwise
      (fun p q => p.2 = q.2 → firstIdx recs p.1 < firstIdx recs q.1) := by
  set L := totalsList recs with hL
  set M := L.mergeSort (fun p q => decide (q.2 ≤ p.2)) with hM
  have hperm : M.Perm L := List.mergeSort_perm L _
  have hLnodup : L.Nodup := totalsList_nodup recs
  have hMnodup : M.Nodup := hperm.nodup_iff.mpr hLnodup
  rw [List.pairwise_iff_forall_sublist]
  intro a b hsub hval
  have hne : a ≠ b := List.pairwise_iff_forall_sublist.mp hMnodup hsub
  have haL : a ∈ L := hperm.mem_iff.mp (hsub.subset (by simp))
  have hbL : b ∈ L := hperm.mem_iff.mp (hsub.subset (by simp))
  rcases pair_sublist_of_mem haL hbL hne with h | h
  · exact List.pairwise_iff_forall_sublist.mp (totalsList_spec recs).2.2 h
  · exfalso
    have hpw : [b, a].Pairwise
        (fun p q : String × ℚ => (fun p q : String × ℚ => decide (q.2 ≤ p.2)) p q = true) := by
      rw [List.pairwise_pair, decide_eq_true_eq]
      exact le_of_eq hval
    have hsub' : [b, a].Sublist M :=
      List.sublist_mergeSort popLe_trans popLe_total hpw h
    exact not_pair_sublist_rev hne hMnodup hsub hsub'

theorem C9_popular_items (recs : List Interaction) (top_n : ℕ) :
    popular_items recs top_n
        = ((totalsList recs).mergeSort (fun p q => decide (q.2 ≤ p.2))).take top_n ∧
    (∀ p ∈ popular_items recs top_n, p.2 = sumRatings recs p.1) ∧
    (popular_items recs top_n).Pairwise
      (fun p q => q.2 ≤ p.2 ∧ (p.2 = q.2 → firstIdx recs p.1 < firstIdx recs q.1)) ∧
    (popular_items recs top_n).length = min top_n (totalsList recs).length := by
  refine ⟨rfl, ?_, ?_, ?_⟩
  · intro p hp
    have hpM : p ∈ (totalsList recs).mergeSort (fun p q => decide (q.2 ≤ p.2)) :=
      (List.take_sublist _ _).subset hp
    have hpL : p ∈ totalsList recs := (List.mergeSort_perm _ _).mem_iff.mp hpM
    exact ((totalsList_spec recs).1 p hpL).2
  · refine List.Pairwise.sublist (List.take_sublist _ _) ?_
    exact (mergeSort_totals_sorted recs).and (mergeSort_totals_tie_stable recs)
  · rw [popular_items, List.length_take, List.length_mergeSort]

/-- A concrete popularity instance: a tie between `a` and `b`, and a
negative total for `c` that is nevertheless kept. -/
def exPopRecs : List Interaction :=
  [⟨"u", "a", 2⟩, ⟨"u", "b", 2⟩, ⟨"u", "c", -1⟩]

lemma popular_ex_eq :
    popular_items exPopRecs 3 = [("a", 2), ("b", 2), ("c", -1)] := by
  have hperm : ((totalsList exPopRecs).mergeSort
      (fun p q => decide (q.2 ≤ p.2))).Perm [("a", 2), ("b", 2), ("c", -1)] :=
    (by decide : totalsList exPopRecs = [("a", 2), ("b", 2), ("c", -1)]) ▸
      List.mergeSort_perm (totalsList exPopRecs) _
  have hM : ((totalsList exPopRecs).mergeSort (fun p q => decide (q.2 ≤ p.2))).Pairwise
      (fun p q : String × ℚ =>
        q.2 ≤ p.2 ∧ (p.2 = q.2 → firstIdx exPopRecs p.1 < firstIdx exPopRecs q.1)) :=
    (mergeSort_totals_sorted exPopRecs).and (mergeSort_totals_tie_stable exPopRecs)
  have hL : ([("a", 2), ("b", 2), ("c", -1)] : List (String × ℚ)).Pairwise
      (fun p q : String × ℚ =>
        q.2 ≤ p.2 ∧ (p.2 = q.2 → firstIdx exPopRecs p.1 < firstIdx exPopRecs q.1)) := by
    decide
  have hanti : IsAntisymm (String × ℚ)
      (fun p q : String × ℚ =>
        q.2 ≤ p.2 ∧ (p.2 = q.2 → firstIdx exPopRecs p.1 < firstIdx exPopRecs q.1)) := by
    refine ⟨fun p q hpq hqp => ?_⟩
    have hv : p.2 = q.2 := le_antisymm hqp.1 hpq.1
    exact absurd (hpq.2 hv) (not_lt_of_gt (hqp.2 hv.symm))
  rw [popular_items,
    @List.eq_of_perm_of_sorted _ _ hanti _ _ hperm hM hL]
  rfl

theorem C9_popular_items_witness :
    (("b", (2 : ℚ)).2 = sumRatings exPopRecs "b") ∧
      firstIdx exPopRecs "a" < firstIdx exPopRecs "b" ∧
      (popular_items exPopRecs 3).length = min 3 (totalsList exPopRecs).length := by
  refine ⟨(C9_popular_items exPopRecs 3).2.1 ("b", 2)
      (by rw [popular_ex_eq]; decide), ?_, (C9_popular_items exPopRecs 3).2.2.2⟩
  have hp := (C9_popular_items exPopRecs 3).2.2.1
  rw [popular_ex_eq] at hp
  exact ((List.pairwise_cons.mp hp).1 ("b", 2) (by decide)).2 rfl

end Recommender
